import Mathlib

/-!
Verification of the jaq-core compilation-and-execution pipeline
(`src/jaq-core/src/lib.rs` and the engine modules it declares).

Pure Rust functions are embedded as Lean functions; streams are embedded
as finite lists of value-or-error results; the reference-counted
persistent environment `RcList` is embedded as a Lean list whose head is
the newest binding.  Definitions taken from `lib.rs` carry a comment
naming the source lines; engine modules that `lib.rs` declares but whose
files are absent (`filter.rs`, `mir.rs`, `lir.rs`, `rc_list.rs`,
`rc_iter.rs`, `rc_lazy_list.rs`) are modelled from the specification, as
their doc comments state.
-/

namespace Jaq

/-- JSON-like value consumed by the engine.  The specification treats the
value type as an opaque external abstraction (null, bool, number, string,
containers); the container cases play no role in the properties below, so
the embedding keeps the scalar cases. -/
inductive Val where
  | null : Val
  | bool : Bool → Val
  | num : Int → Val
  | str : String → Val
  deriving Repr, DecidableEq

/-- Run-time error carried inside the output stream (module `error.rs`,
absent from the sources; modelled from the spec: run-time errors are
stream elements, e.g. type errors and division by zero). -/
inductive Error where
  | divByZero : Error
  | typeErr : Error
  | unboundOffset : Error
  | badCallIdx : Error
  | noFuel : Error
  | nativeErr : Nat → Error
  deriving Repr, DecidableEq

/-- Conversion of an error to a value, used when an intercepted error is
fed to a catch combinator. -/
def errVal : Error → Val
  | Error.divByZero => Val.str "division by zero"
  | Error.typeErr => Val.str "type error"
  | Error.unboundOffset => Val.str "unbound variable offset"
  | Error.badCallIdx => Val.str "invalid recursion table index"
  | Error.noFuel => Val.str "recursion fuel exhausted"
  | Error.nativeErr _ => Val.str "native filter"

/-- Modelled from the spec: the persistent environment of `rc_list.rs`
(absent from the sources) is an immutable, structurally shared list of
bound values, newest first.  The embedding is a Lean list with the head
as the newest binding. -/
abbrev RcList (α : Type) : Type := List α

/-- Modelled from the spec: `cons(v)` returns a new environment with `v`
as the newest binding; the former environment is unaffected. -/
def RcList.cons (v : α) (l : RcList α) : RcList α := v :: l

/-- Modelled from the spec: `clone` of a reference-counted persistent
list shares the nodes; observationally it is the identity. -/
def RcList.clone (l : RcList α) : RcList α := l

/-- Modelled from the spec: `skip(n)` returns the environment with the n
most-recent bindings removed, bounded at the length of the list. -/
def RcList.skip (n : Nat) (l : RcList α) : RcList α := l.drop n

/-- Modelled from the spec: `pop_many(n)` removes and returns the n
most-recent bindings together with the remaining list, without copying
the shared remainder.  The removed bindings are returned newest first,
matching the traversal order of the list. -/
def RcList.pop_many (n : Nat) (l : RcList α) : RcList α × RcList α :=
  (l.take n, l.drop n)

/-- Modelled from the spec: `cons_many(iter)` pushes a sequence of
values; the most recently iterated value becomes the newest binding. -/
def RcList.cons_many (l : RcList α) (xs : List α) : RcList α :=
  xs.foldl (fun acc v => RcList.cons v acc) l

/-- Modelled from the spec: the empty environment. -/
def RcList.nil : RcList α := []

/-- Environment transformation of `Ctx::save_skip_vars`
(`lib.rs` lines 112 to 121), acting on the variable list: when `save` is
zero it skips `skip` bindings; otherwise it pops the `save` most recent
bindings, skips `skip` further bindings, and pushes the popped bindings
back (reversed before `cons_many`, so their relative order is kept). -/
def save_skip_vars (save skip : Nat) (vars : RcList Val) : RcList Val :=
  if save = 0 then
    (RcList.skip skip vars).clone
  else
    let (saved, rest) := RcList.pop_many save vars
    let saved := saved.reverse
    RcList.cons_many ((RcList.skip skip rest).clone) saved

theorem RcList.cons_many_eq (l : RcList α) (xs : List α) :
    RcList.cons_many l xs = xs.reverse ++ l := by
  induction xs generalizing l with
  | nil => rfl
  | cons x xs ih =>
      have h : RcList.cons_many l (x :: xs) = RcList.cons_many (x :: l) xs := rfl
      rw [h, ih]
      simp

theorem save_skip_vars_eq (save skip : Nat) (vars : RcList Val) :
    save_skip_vars save skip vars = vars.take save ++ vars.drop (save + skip) := by
  by_cases h : save = 0
  · subst h
    simp [save_skip_vars, RcList.skip, RcList.clone]
  · simp only [save_skip_vars, if_neg h, RcList.pop_many, RcList.skip, RcList.clone,
      RcList.cons_many_eq, List.reverse_reverse, List.drop_drop]

theorem save_skip_vars_length (save skip : Nat) (vars : RcList Val)
    (h : save + skip ≤ vars.length) :
    (save_skip_vars save skip vars).length = vars.length - skip := by
  rw [save_skip_vars_eq]
  simp only [List.length_append, List.length_take, List.length_drop]
  omega

/-- Modelled from the spec: the low-level combinator representation of
`filter.rs` (absent from the sources).  The control combinators are the
ones the specification requires: identity, literal, pipe, comma,
variable reference by de Bruijn offset, variable binding, try/catch, a
division operator standing for the arithmetic value operations, native
filter references, and recursive calls carrying a recursion-table index
and the skip count computed at lowering time. -/
inductive Filter where
  | id : Filter
  | lit : Val → Filter
  | pipe : Filter → Filter → Filter
  | comma : Filter → Filter → Filter
  | varF : Nat → Filter
  | bindV : Filter → Filter → Filter
  | tryCatch : Filter → Filter → Filter
  | divF : Filter → Filter → Filter
  | native : Nat → Filter
  | call : Nat → List Filter → Nat → Filter
  deriving Repr

/-- Filter execution context (`lib.rs` lines 77 to 84): variable
bindings plus the borrowed recursion table.  The external input-stream
handle of the Rust struct plays no role in the verified properties and
is omitted from the embedding. -/
structure Ctx where
  vars : RcList Val
  recs : List (Nat × Filter)
  deriving Repr

/-- Construction of a context (`lib.rs` lines 88 to 92): the initial
bindings are folded with cons, so the last item of the iterator becomes
the newest binding, and the recursion table starts empty. -/
def Ctx.new (vars : List Val) : Ctx :=
  { vars := vars.foldl (fun acc v => RcList.cons v acc) RcList.nil,
    recs := [] }

/-- Addition of a variable binding (`lib.rs` lines 95 to 98). -/
def Ctx.cons_var (c : Ctx) (x : Val) : Ctx :=
  { c with vars := RcList.cons x c.vars }

/-- Context-level `save_skip_vars` (`lib.rs` lines 112 to 121). -/
def Ctx.save_skip_vars (c : Ctx) (save skip : Nat) : Ctx :=
  { c with vars := Jaq.save_skip_vars save skip c.vars }

/-- Modelled from the spec: division on values; dividing by zero is a
run-time error, dividing non-numbers a type error. -/
def divVal : Val → Val → Except Error Val
  | Val.num a, Val.num b =>
      if b = 0 then Except.error Error.divByZero else Except.ok (Val.num (a / b))
  | _, _ => Except.error Error.typeErr

/-- Modelled from the spec: stream sequencing of the Pipe combinator.
Each value of the upstream is fed to the downstream continuation and all
of its outputs are emitted before the next upstream value; an upstream
error is emitted and stops the upstream iteration. -/
def pipeRun (g : Val → List (Except Error Val)) :
    List (Except Error Val) → List (Except Error Val)
  | [] => []
  | Except.ok x :: rest => g x ++ pipeRun g rest
  | Except.error e :: _ => [Except.error e]

/-- Modelled from the spec: stream sequencing of the Try/Catch
combinator.  Non-error outputs pass through unchanged; each error is fed
to the catch continuation, whose outputs replace it, and iteration of
the protected stream continues. -/
def tryRun (g : Error → List (Except Error Val)) :
    List (Except Error Val) → List (Except Error Val)
  | [] => []
  | Except.ok x :: rest => Except.ok x :: tryRun g rest
  | Except.error e :: rest => g e ++ tryRun g rest

/-- Modelled from the spec: left-to-right Cartesian product of argument
streams for a recursive call; the first error encountered in an argument
stream truncates that branch. -/
def cartRun : List (List (Except Error Val)) → List (Except Error (List Val))
  | [] => [Except.ok []]
  | s :: ss =>
      let rest := cartRun ss
      s.flatMap fun r =>
        match r with
        | Except.ok x => rest.map (fun r2 => r2.map (fun vs => x :: vs))
        | Except.error e => [Except.error e]

/-- Modelled from the spec: the evaluator of `filter.rs` (absent from
the sources) maps a combinator, a context and a value to a stream of
value-or-error results.  Streams are embedded as finite lists; the
`fuel` argument bounds the depth of recursion-table calls, which is the
only non-structural recursion, and is consumed exclusively by the
`call` combinator. -/
def Filter.run (fuel : Nat) (f : Filter) (ctx : Ctx) (v : Val) :
    List (Except Error Val) :=
  match f with
  | Filter.id => [Except.ok v]
  | Filter.lit w => [Except.ok w]
  | Filter.pipe a b =>
      pipeRun (fun x => Filter.run fuel b ctx x) (Filter.run fuel a ctx v)
  | Filter.comma a b => Filter.run fuel a ctx v ++ Filter.run fuel b ctx v
  | Filter.varF i =>
      match (RcList.skip i ctx.vars).head? with
      | some x => [Except.ok x]
      | none => [Except.error Error.unboundOffset]
  | Filter.bindV a b =>
      pipeRun (fun x => Filter.run fuel b (ctx.cons_var x) v) (Filter.run fuel a ctx v)
  | Filter.tryCatch p c =>
      tryRun (fun e => Filter.run fuel c ctx (errVal e)) (Filter.run fuel p ctx v)
  | Filter.divF a b =>
      pipeRun (fun x => pipeRun (fun y => [divVal x y]) (Filter.run fuel b ctx v))
        (Filter.run fuel a ctx v)
  | Filter.native i => [Except.error (Error.nativeErr i)]
  | Filter.call idx args skp =>
      match fuel with
      | 0 => [Except.error Error.noFuel]
      | fuel' + 1 =>
          match ctx.recs[idx]? with
          | none => [Except.error Error.badCallIdx]
          | some (ar, body) =>
              (cartRun (args.attach.map (fun (p : { x // x ∈ args }) =>
                  have hp : sizeOf p.1 < sizeOf args := List.sizeOf_lt_of_mem p.2
                  Filter.run (fuel' + 1) p.1 ctx v))).flatMap
                (fun r =>
                  match r with
                  | Except.error e => [Except.error e]
                  | Except.ok vs =>
                      Filter.run fuel' body
                        { ctx with vars := save_skip_vars ar skp (RcList.cons_many ctx.vars vs) }
                        v)
termination_by (fuel, sizeOf f)

/-- Function from a value to a stream of value results
(`lib.rs` lines 124 to 126): the root combinator tree paired with the
recursion table. -/
structure MainFilter where
  tree : Filter
  table : List (Nat × Filter)
  deriving Repr

/-- Application of a compiled filter (`lib.rs` lines 130 to 133): the
recursion-table reference of the supplied context is overwritten with
the table of the filter before the tree is evaluated. -/
def MainFilter.run (fuel : Nat) (f : MainFilter) (ctx : Ctx) (v : Val) :
    List (Except Error Val) :=
  Filter.run fuel f.tree { ctx with recs := f.table } v

/-- Modelled from the spec: compile-time resolution errors of `mir.rs`
(absent from the sources): unresolved name or arity, and unbound
variable. -/
inductive ParseError where
  | undefinedName (name : String) (arity : Nat) : ParseError
  | unboundVar (name : String) : ParseError
  deriving Repr, DecidableEq

/-- Parsed filter term, the shape of the output of the external parser
that the resolution pass consumes. -/
inductive Term where
  | id : Term
  | lit : Val → Term
  | pipeT : Term → Term → Term
  | commaT : Term → Term → Term
  | varT : String → Term
  | bindT : String → Term → Term → Term
  | callT : String → List Term → Term
  | tryT : Term → Term → Term
  | divT : Term → Term → Term
  deriving Repr

/-- Parsed definition: a name, formal parameters, and a body. -/
structure Def where
  name : String
  params : List String
  body : Term
  deriving Repr

/-- Main filter as parsed: definitions plus a body (`parse::Main`). -/
abbrev Main := List Def × Term

/-- Modelled from the spec: an entry of the definitions table is either
a native function (identified by an id) or a user definition. -/
inductive DefKind where
  | native (id : Nat) : DefKind
  | user (params : List String) (body : Term) : DefKind
  deriving Repr

/-- Modelled from the spec: the definitions table of `mir.rs` (absent
from the sources) maps (name, arity) pairs to natives or parsed bodies
and records the global variable names; entries are kept newest first,
so resolution prefers the most recently inserted match. -/
structure Defs where
  table : List (String × Nat × DefKind)
  globals : List String
  deriving Repr

/-- Modelled from the spec: fresh definitions with access to global
variables of the given names (`mir::Defs::new`, reached from
`Definitions::new`, `lib.rs` lines 144 to 146). -/
def Defs.new (globals : List String) : Defs :=
  { table := [], globals := globals }

/-- Modelled from the spec: registration of one (name, arity, filter)
entry (`mir::Defs::insert_fn`); the new entry becomes the most recent
one. -/
def Defs.insert_fn (d : Defs) (name : String) (arity : Nat) (k : DefKind) : Defs :=
  { d with table := (name, arity, k) :: d.table }

/-- Modelled from the spec: resolution of a (name, arity) pair against
the table; the most recently inserted exact match wins, and the arity
must match exactly. -/
def resolveRef (tbl : List (String × Nat × DefKind)) (name : String) (arity : Nat) :
    Option DefKind :=
  match tbl with
  | [] => none
  | (n, a, k) :: rest =>
      if n = name ∧ a = arity then some k else resolveRef rest name arity

/-- Modelled from the spec: the resolution pass of `mir.rs` collects,
for a term under a list of bound variable names (newest first) and the
declared globals, the unresolved-call and unbound-variable errors, left
to right. -/
def termErrors (d : Defs) (bound : List String) : Term → List ParseError
  | Term.id => []
  | Term.lit _ => []
  | Term.pipeT a b => termErrors d bound a ++ termErrors d bound b
  | Term.commaT a b => termErrors d bound a ++ termErrors d bound b
  | Term.divT a b => termErrors d bound a ++ termErrors d bound b
  | Term.tryT p c => termErrors d bound p ++ termErrors d bound c
  | Term.varT x =>
      if x ∈ bound ∨ x ∈ d.globals then [] else [ParseError.unboundVar x]
  | Term.bindT x rhs body =>
      termErrors d bound rhs ++ termErrors d (x :: bound) body
  | Term.callT name args =>
      (match resolveRef d.table name args.length with
       | some _ => []
       | none => [ParseError.undefinedName name args.length]) ++
      (args.attach.map (fun (p : { x // x ∈ args }) =>
        have hp : sizeOf p.1 < sizeOf args := List.sizeOf_lt_of_mem p.2
        termErrors d bound p.1)).flatten
termination_by t => sizeOf t

/-- Modelled from the spec: `mir::Defs::root_def` registers a user
definition (visible to itself, enabling self-recursion) and appends the
resolution errors of its body; at entry to the body the parameters are
bound, the last parameter being the newest binding. -/
def Defs.root_def (d : Defs) (df : Def) (errs : List ParseError) :
    Defs × List ParseError :=
  let d1 := d.insert_fn df.name df.params.length (DefKind.user df.params df.body)
  (d1, errs ++ termErrors d1 df.params.reverse df.body)

/-- Import of parsed definitions (`lib.rs` lines 168 to 174): each
definition is registered in turn via `root_def`, errors accumulating in
the caller-supplied list. -/
def Definitions.insert_defs (d : Defs) (defs : List Def) (errs : List ParseError) :
    Defs × List ParseError :=
  defs.foldl (fun p df => p.1.root_def df p.2) (d, errs)

/-- Registration of native filters (`lib.rs` lines 156 to 163): each
(name, arity, native id) triple is inserted in iteration order. -/
def Definitions.insert_natives (d : Defs) (natives : List (String × Nat × Nat)) : Defs :=
  natives.foldl (fun d p => d.insert_fn p.1 p.2.1 (DefKind.native p.2.2)) d

/-- Modelled from the spec: `mir::Defs::root_filter` resolves the main
body against the accumulated table (globals visible, no locals bound)
and appends its errors. -/
def Defs.root_filter (d : Defs) (body : Term) (errs : List ParseError) :
    List ParseError :=
  errs ++ termErrors d [] body

/-- Modelled from the spec: position in the recursion table of the user
entry a call resolves to; the table is scanned newest first and native
entries occupy no table slot.  When the most recent match is a native,
the call is a native call and has no table position. -/
def userIdx (tbl : List (String × Nat × DefKind)) (name : String) (arity : Nat) :
    Option Nat :=
  match tbl with
  | [] => none
  | (n, a, DefKind.user _ _) :: rest =>
      if n = name ∧ a = arity then some 0
      else (userIdx rest name arity).map (fun i => i + 1)
  | (n, a, DefKind.native _) :: rest =>
      if n = name ∧ a = arity then none
      else userIdx rest name arity

/-- Modelled from the spec: the lowering of `lir.rs` (absent from the
sources) translates a term into a combinator tree; variable references
become de Bruijn offsets into the bound list (globals behind the
locals), calls to natives become native combinators, and calls to user
definitions become recursion-table calls whose index is the position of
the target in the global table (`off` user entries precede the visible
table) and whose skip count is the number of bindings made since entry
to the enclosing definition. -/
def lowerTerm (tbl : List (String × Nat × DefKind)) (g : List String) (off : Nat)
    (bound : List String) : Term → Filter
  | Term.id => Filter.id
  | Term.lit v => Filter.lit v
  | Term.pipeT a b =>
      Filter.pipe (lowerTerm tbl g off bound a) (lowerTerm tbl g off bound b)
  | Term.commaT a b =>
      Filter.comma (lowerTerm tbl g off bound a) (lowerTerm tbl g off bound b)
  | Term.divT a b =>
      Filter.divF (lowerTerm tbl g off bound a) (lowerTerm tbl g off bound b)
  | Term.tryT p c =>
      Filter.tryCatch (lowerTerm tbl g off bound p) (lowerTerm tbl g off bound c)
  | Term.varT x =>
      match bound.findIdx? (fun y => y = x) with
      | some i => Filter.varF i
      | none =>
          match g.findIdx? (fun y => y = x) with
          | some i => Filter.varF (bound.length + i)
          | none => Filter.varF (bound.length + g.length)
  | Term.bindT x rhs body =>
      Filter.bindV (lowerTerm tbl g off bound rhs) (lowerTerm tbl g off (x :: bound) body)
  | Term.callT name args =>
      match resolveRef tbl name args.length with
      | some (DefKind.native i) => Filter.native i
      | some (DefKind.user _ _) =>
          Filter.call (off + (userIdx tbl name args.length).getD 0)
            (args.attach.map (fun (p : { x // x ∈ args }) =>
              have hp : sizeOf p.1 < sizeOf args := List.sizeOf_lt_of_mem p.2
              lowerTerm tbl g off bound p.1))
            bound.length
      | none => Filter.native 0
termination_by t => sizeOf t

/-- Modelled from the spec: construction of the recursion table; every
user definition is materialized in table order, each body lowered
against the part of the table visible at its insertion (itself and the
older entries), with its parameters bound at entry. -/
def lowerTable (g : List String) :
    Nat → List (String × Nat × DefKind) → List (Nat × Filter)
  | _, [] => []
  | off, (_, _, DefKind.native _) :: rest => lowerTable g off rest
  | off, (n, a, DefKind.user params body) :: rest =>
      (a, lowerTerm ((n, a, DefKind.user params body) :: rest) g off params.reverse body)
        :: lowerTable g (off + 1) rest

/-- Modelled from the spec: `lir::root_def` emits the lowered main body
together with the recursion table. -/
def lirRootDef (d : Defs) (body : Term) : Filter × List (Nat × Filter) :=
  (lowerTerm d.table d.globals 0 [] body, lowerTable d.globals 0 d.table)

/-- Finishing a main filter (`lib.rs` lines 182 to 192): the parsed
definitions are imported, the main body is resolved, and when the error
list is non-empty the identity filter with an empty recursion table is
returned; otherwise the lowered filter with its recursion table. -/
def Definitions.finish (d : Defs) (m : Main) (errs : List ParseError) :
    MainFilter × List ParseError :=
  let p := Definitions.insert_defs d m.1 errs
  let errs2 := p.1.root_filter m.2 p.2
  if errs2.isEmpty then
    let fr := lirRootDef p.1 m.2
    ({ tree := fr.1, table := fr.2 }, errs2)
  else
    ({ tree := Filter.id, table := [] }, errs2)

/-- Compile-time errors generated by one finish call on its own: the
errors of the imported definitions followed by the errors of the main
body, starting from an empty error list. -/
def genErrors (d : Defs) (m : Main) : List ParseError :=
  (Definitions.insert_defs d m.1 []).2 ++
    termErrors (Definitions.insert_defs d m.1 []).1 [] m.2

/-- Modelled from the spec: the recursion discipline of the evaluator
for one self-recursive slot of arity `k` with `locals` local bindings
per body, iterated along an input stream.  `recEnvs n` is the
environment at entry to the n-th execution of the recursive body,
starting from `e0` (which already carries the arguments of the first
call); each step pushes the `locals` bindings of the body (`locs n`),
then the `k` fresh argument values of the next call (`args n`), and
transfers control through `save_skip_vars` with `save` the arity and
`skip` the number of bindings made since the enclosing call. -/
def recEnvs (k locals : Nat) (args locs : Nat → List Val) (e0 : RcList Val) :
    Nat → RcList Val
  | 0 => e0
  | n + 1 =>
      save_skip_vars k (locals + k)
        (RcList.cons_many (RcList.cons_many (recEnvs k locals args locs e0 n) (locs n))
          (args n))

/-- Modelled from the spec: the peak environment depth reached while
preparing the recursive call that leads from the n-th body execution to
the next: all bindings of the body plus the fresh arguments are live at
that moment. -/
def recPeak (k locals : Nat) (args locs : Nat → List Val) (e0 : RcList Val) (n : Nat) :
    Nat :=
  (RcList.cons_many (RcList.cons_many (recEnvs k locals args locs e0 n) (locs n))
    (args n)).length

/-- Modelled from the spec: the output stream handle of `rc_iter.rs`
(absent from the sources), embedded by its remaining elements; pulling
the next element consumes the head, and an exhausted stream stays
exhausted, it is never re-run. -/
def streamNext : List α → Option α × List α
  | [] => (none, [])
  | x :: xs => (some x, xs)

/-- Repeated pulling: the list of elements obtained by pulling n times
from the given stream state. -/
def collectN : Nat → List α → List α
  | 0, _ => []
  | n + 1, s =>
      match streamNext s with
      | (none, _) => []
      | (some x, s2) => x :: collectN n s2

/-- Modelled from the spec: the shared memoizing lazy sequence of
`rc_lazy_list.rs` (absent from the sources): a cache of the elements
produced so far, the part of the underlying producer not yet run, and a
counter of producer invocations.  Every consumer holds a cursor into
the shared cache. -/
structure SharedCache (α : Type) where
  cache : List α
  pending : List α
  runs : Nat
  deriving Repr

/-- Modelled from the spec: one pull at cursor position `i`.  A position
inside the cache is answered from the cache without running the
producer; a position at the frontier forces the producer once, the
result being appended to the shared cache. -/
def SharedCache.pull (s : SharedCache α) (i : Nat) : Option α × SharedCache α :=
  if h : i < s.cache.length then
    (some (s.cache.get ⟨i, h⟩), s)
  else
    match s.pending with
    | [] => (none, s)
    | x :: xs => (some x, { cache := s.cache ++ [x], pending := xs, runs := s.runs + 1 })

/-- State of the shared cache after an arbitrary interleaving of pulls
by any number of consumers, given by their cursor positions in order. -/
def SharedCache.pullAll (s : SharedCache α) (is : List Nat) : SharedCache α :=
  is.foldl (fun s i => (s.pull i).2) s

theorem pipeRun_ok_map (g : Val → List (Except Error Val)) (xs : List Val) :
    pipeRun g (xs.map Except.ok) = xs.flatMap g := by
  induction xs with
  | nil => rfl
  | cons x xs ih => simp [pipeRun, ih]

theorem pipeRun_error_stop (g : Val → List (Except Error Val)) (xs : List Val)
    (e : Error) (rest : List (Except Error Val)) :
    pipeRun g (xs.map Except.ok ++ Except.error e :: rest) =
      xs.flatMap g ++ [Except.error e] := by
  induction xs with
  | nil => rfl
  | cons x xs ih => simp [pipeRun, ih]

theorem tryRun_eq_flatMap (g : Error → List (Except Error Val))
    (s : List (Except Error Val)) :
    tryRun g s = s.flatMap (fun r =>
      match r with
      | Except.ok x => [Except.ok x]
      | Except.error e => g e) := by
  induction s with
  | nil => rfl
  | cons r rest ih => cases r <;> simp [tryRun, ih]

theorem run_pipe (fuel : Nat) (a b : Filter) (ctx : Ctx) (v : Val) :
    Filter.run fuel (Filter.pipe a b) ctx v =
      pipeRun (fun x => Filter.run fuel b ctx x) (Filter.run fuel a ctx v) := by
  rw [Filter.run]

theorem run_comma (fuel : Nat) (a b : Filter) (ctx : Ctx) (v : Val) :
    Filter.run fuel (Filter.comma a b) ctx v =
      Filter.run fuel a ctx v ++ Filter.run fuel b ctx v := by
  rw [Filter.run]

theorem run_tryCatch (fuel : Nat) (p c : Filter) (ctx : Ctx) (v : Val) :
    Filter.run fuel (Filter.tryCatch p c) ctx v =
      tryRun (fun e => Filter.run fuel c ctx (errVal e)) (Filter.run fuel p ctx v) := by
  rw [Filter.run]

/-- C2: on an environment holding at least save + skip bindings,
`save_skip_vars` detaches the `save` newest bindings, drops the `skip`
bindings immediately below them, and re-attaches the `save` bindings on
top in their original relative order, leaving all deeper bindings
unchanged; the resulting environment is exactly `skip` bindings shorter
than the original. -/
theorem save_skip_vars_spec (c : Ctx) (save skip : Nat)
    (h : save + skip ≤ c.vars.length) :
    (c.save_skip_vars save skip).vars =
        c.vars.take save ++ c.vars.drop (save + skip) ∧
      (c.save_skip_vars save skip).vars.length = c.vars.length - skip := by
  constructor
  · exact save_skip_vars_eq save skip c.vars
  · show (Jaq.save_skip_vars save skip c.vars).length = _
    exact save_skip_vars_length save skip c.vars h

/-- Witness for C2: a four-binding environment with save 1 and skip 2
keeps the newest binding, drops the two below it, keeps the deepest
binding, and is two bindings shorter. -/
theorem save_skip_vars_spec_witness :
    1 + 2 ≤ (Ctx.mk [Val.num 1, Val.num 2, Val.num 3, Val.num 4] []).vars.length ∧
    ((Ctx.mk [Val.num 1, Val.num 2, Val.num 3, Val.num 4] []).save_skip_vars 1 2).vars =
        [Val.num 1, Val.num 4] ∧
      ((Ctx.mk [Val.num 1, Val.num 2, Val.num 3, Val.num 4] []).save_skip_vars 1 2).vars.length = 4 - 2 := by
  refine ⟨by decide, ?_⟩
  have h := save_skip_vars_spec (Ctx.mk [Val.num 1, Val.num 2, Val.num 3, Val.num 4] []) 1 2
    (by decide)
  exact ⟨by rw [h.1]; decide, h.2⟩

/-- C3: consing a value onto an environment and skipping one binding
returns the original environment, and extending one clone of an
environment never changes the visible bindings of the other clone:
clone shares the structure, cons builds only a new head node, so after
cons of v onto one clone the other clone is still the original list. -/
theorem cons_skip_clone (e : RcList Val) (v : Val) :
    RcList.skip 1 (RcList.cons v e) = e ∧
      RcList.clone e = e ∧
      RcList.skip 1 (RcList.cons v (RcList.clone e)) = RcList.clone e :=
  ⟨rfl, rfl, rfl⟩

/-- C4: Pipe enumerates the outputs of the left filter in order and,
for each of them, yields all outputs of the right filter on it before
moving to the next one (depth-first, left-to-right Cartesian
flattening), and Comma yields all outputs of the left filter followed
by all outputs of the right filter, both on the same input and
environment; a left filter yielding values x1, x2 thus gives the pipe
the outputs of the right filter on x1 followed by those on x2. -/
theorem pipe_comma_flattening (fuel : Nat) (a b : Filter) (ctx : Ctx) (v : Val)
    (xs : List Val) (h : Filter.run fuel a ctx v = xs.map Except.ok) :
    Filter.run fuel (Filter.pipe a b) ctx v =
        xs.flatMap (fun x => Filter.run fuel b ctx x) ∧
      Filter.run fuel (Filter.comma a b) ctx v =
        Filter.run fuel a ctx v ++ Filter.run fuel b ctx v := by
  constructor
  · rw [run_pipe, h, pipeRun_ok_map]
  · exact run_comma fuel a b ctx v

/-- Witness for C4: the left filter yields [1, 2]; the right filter
yields two outputs per input (the input and the literal 5); the pipe
yields the four outputs in depth-first left-to-right order. -/
theorem pipe_comma_flattening_witness :
    Filter.run 1 (Filter.comma (Filter.lit (Val.num 1)) (Filter.lit (Val.num 2)))
        (Ctx.new []) Val.null = ([Val.num 1, Val.num 2]).map Except.ok ∧
    (Filter.run 1
          (Filter.pipe (Filter.comma (Filter.lit (Val.num 1)) (Filter.lit (Val.num 2)))
            (Filter.comma Filter.id (Filter.lit (Val.num 5))))
          (Ctx.new []) Val.null =
        ([Val.num 1, Val.num 2]).flatMap
          (fun x =>
            Filter.run 1 (Filter.comma Filter.id (Filter.lit (Val.num 5))) (Ctx.new []) x) ∧
      Filter.run 1
          (Filter.comma (Filter.comma (Filter.lit (Val.num 1)) (Filter.lit (Val.num 2)))
            (Filter.comma Filter.id (Filter.lit (Val.num 5))))
          (Ctx.new []) Val.null =
        Filter.run 1 (Filter.comma (Filter.lit (Val.num 1)) (Filter.lit (Val.num 2)))
            (Ctx.new []) Val.null ++
          Filter.run 1 (Filter.comma Filter.id (Filter.lit (Val.num 5))) (Ctx.new [])
            Val.null) := by
  have ha : Filter.run 1 (Filter.comma (Filter.lit (Val.num 1)) (Filter.lit (Val.num 2)))
      (Ctx.new []) Val.null = ([Val.num 1, Val.num 2]).map Except.ok := by
    simp [Filter.run]
  exact ⟨ha, pipe_comma_flattening 1 _ _ _ _ [Val.num 1, Val.num 2] ha⟩

/-- C5: in the evaluation of a pipe, an error yielded by the left side
is yielded in the output stream and stops the iteration of the left
side, later left-outputs never being processed; an error yielded by the
right side on one left-output is yielded but does not stop the
iteration, the following left-outputs still being processed with their
own independent right-side runs. -/
theorem pipe_error_semantics (fuel : Nat) (a b : Filter) (ctx : Ctx) (v : Val) :
    (∀ (xs : List Val) (e : Error) (rest : List (Except Error Val)),
        Filter.run fuel a ctx v = xs.map Except.ok ++ Except.error e :: rest →
        Filter.run fuel (Filter.pipe a b) ctx v =
          xs.flatMap (fun x => Filter.run fuel b ctx x) ++ [Except.error e]) ∧
    (∀ (x1 x2 : Val) (e : Error),
        Filter.run fuel a ctx v = [Except.ok x1, Except.ok x2] →
        Filter.run fuel b ctx x1 = [Except.error e] →
        Filter.run fuel (Filter.pipe a b) ctx v =
          Except.error e :: Filter.run fuel b ctx x2) := by
  constructor
  · intro xs e rest h
    rw [run_pipe, h, pipeRun_error_stop]
  · intro x1 x2 e h1 h2
    rw [run_pipe, h1]
    simp [pipeRun, h2]

/-- Witness for C5: the left filter yields 1, then a division-by-zero
error, then 3; against the identity right filter the pipe yields the
output on 1 and the error, and the trailing 3 is never processed.  For
the second part, a left filter yielding 0 and 2 with a right filter
dividing 6 by its input yields the error on 0 followed by the output
on 2. -/
theorem pipe_error_semantics_witness :
    Filter.run 1
        (Filter.pipe
          (Filter.comma (Filter.lit (Val.num 1))
            (Filter.comma (Filter.divF (Filter.lit (Val.num 1)) (Filter.lit (Val.num 0)))
              (Filter.lit (Val.num 3))))
          Filter.id)
        (Ctx.new []) Val.null =
      ([Val.num 1]).flatMap (fun x => Filter.run 1 Filter.id (Ctx.new []) x) ++
        [Except.error Error.divByZero] ∧
    Filter.run 1
        (Filter.pipe (Filter.comma (Filter.lit (Val.num 0)) (Filter.lit (Val.num 2)))
          (Filter.divF (Filter.lit (Val.num 6)) Filter.id))
        (Ctx.new []) Val.null =
      Except.error Error.divByZero ::
        Filter.run 1 (Filter.divF (Filter.lit (Val.num 6)) Filter.id) (Ctx.new [])
          (Val.num 2) := by
  constructor
  · exact (pipe_error_semantics 1 _ Filter.id (Ctx.new []) Val.null).1 [Val.num 1]
      Error.divByZero [Except.ok (Val.num 3)] (by simp [Filter.run, pipeRun, divVal])
  · exact (pipe_error_semantics 1 _ _ (Ctx.new []) Val.null).2 (Val.num 0) (Val.num 2)
      Error.divByZero (by simp [Filter.run]) (by simp [Filter.run, pipeRun, divVal])

/-- C6: try/catch yields, for each output of the protected filter in
order, the output itself when it is a value, and all outputs of the
catch filter applied in the place of the error otherwise; in particular
try (1/0) catch "err" yields exactly ["err"] and try (1) catch "err"
yields exactly [1]. -/
theorem try_catch_recovery :
    (∀ (fuel : Nat) (p c : Filter) (ctx : Ctx) (v : Val),
        Filter.run fuel (Filter.tryCatch p c) ctx v =
          (Filter.run fuel p ctx v).flatMap (fun r =>
            match r with
            | Except.ok x => [Except.ok x]
            | Except.error e => Filter.run fuel c ctx (errVal e))) ∧
    Filter.run 1
        (Filter.tryCatch (Filter.divF (Filter.lit (Val.num 1)) (Filter.lit (Val.num 0)))
          (Filter.lit (Val.str "err")))
        (Ctx.new []) Val.null = [Except.ok (Val.str "err")] ∧
    Filter.run 1 (Filter.tryCatch (Filter.lit (Val.num 1)) (Filter.lit (Val.str "err")))
        (Ctx.new []) Val.null = [Except.ok (Val.num 1)] := by
  refine ⟨?_, ?_, ?_⟩
  · intro fuel p c ctx v
    rw [run_tryCatch, tryRun_eq_flatMap]
  · simp [Filter.run, pipeRun, tryRun, divVal]
  · simp [Filter.run, tryRun]

/-- C7: name resolution is lexically scoped with shadowing by recency:
resolution always returns the most recently inserted entry for an exact
(name, arity) match, insertion of an entry changes resolution for no
other (name, arity) pair, and the arity must match exactly.
Concretely, with a native f/0 bound to A registered first and a user
definition f/0 with body B inserted afterwards, resolution against the
table visible after the user definition (the table every call site
textually after it is resolved against) returns B, resolution against
the table visible before it (used for call sites textually before the
user definition) returns A, and f/1 resolves against neither table. -/
theorem resolve_shadowing :
    (∀ (d : Defs) (name : String) (ar : Nat) (k : DefKind),
        resolveRef (d.insert_fn name ar k).table name ar = some k) ∧
    (∀ (d : Defs) (name : String) (ar : Nat) (k : DefKind) (n2 : String) (a2 : Nat),
        n2 ≠ name ∨ a2 ≠ ar →
        resolveRef (d.insert_fn name ar k).table n2 a2 = resolveRef d.table n2 a2) ∧
    resolveRef (((Defs.new []).insert_fn "f" 0 (DefKind.native 0)).insert_fn "f" 0
        (DefKind.user [] (Term.lit (Val.num 1)))).table "f" 0 =
      some (DefKind.user [] (Term.lit (Val.num 1))) ∧
    resolveRef ((Defs.new []).insert_fn "f" 0 (DefKind.native 0)).table "f" 0 =
      some (DefKind.native 0) ∧
    resolveRef (((Defs.new []).insert_fn "f" 0 (DefKind.native 0)).insert_fn "f" 0
        (DefKind.user [] (Term.lit (Val.num 1)))).table "f" 1 = none := by
  refine ⟨?_, ?_, ?_, ?_, ?_⟩
  · intro d name ar k
    simp [Defs.insert_fn, resolveRef]
  · intro d name ar k n2 a2 h
    have hcond : ¬(name = n2 ∧ ar = a2) := by
      rcases h with h | h
      · exact fun hc => h hc.1.symm
      · exact fun hc => h hc.2.symm
    simp [Defs.insert_fn, resolveRef, hcond]
  · simp [Defs.insert_fn, Defs.new, resolveRef]
  · simp [Defs.insert_fn, Defs.new, resolveRef]
  · simp [Defs.insert_fn, Defs.new, resolveRef]

/-- Witness for C7: inserting g/1 leaves the resolution of f/0
untouched (name mismatch), and inserting f/2 leaves the resolution of
f/0 untouched (arity mismatch). -/
theorem resolve_shadowing_witness :
    resolveRef (((Defs.new []).insert_fn "f" 0 (DefKind.native 0)).insert_fn "g" 1
        (DefKind.native 1)).table "f" 0 =
      resolveRef ((Defs.new []).insert_fn "f" 0 (DefKind.native 0)).table "f" 0 ∧
    resolveRef (((Defs.new []).insert_fn "f" 0 (DefKind.native 0)).insert_fn "f" 2
        (DefKind.native 2)).table "f" 0 =
      resolveRef ((Defs.new []).insert_fn "f" 0 (DefKind.native 0)).table "f" 0 := by
  constructor
  · exact resolve_shadowing.2.1 ((Defs.new []).insert_fn "f" 0 (DefKind.native 0)) "g" 1
      (DefKind.native 1) "f" 0 (Or.inl (by decide))
  · exact resolve_shadowing.2.1 ((Defs.new []).insert_fn "f" 0 (DefKind.native 0)) "f" 2
      (DefKind.native 2) "f" 0 (Or.inr (by decide))

theorem insert_defs_cons (d : Defs) (df : Def) (defs : List Def)
    (errs : List ParseError) :
    Definitions.insert_defs d (df :: defs) errs =
      Definitions.insert_defs (d.root_def df errs).1 defs (d.root_def df errs).2 := rfl

theorem root_def_snd (d : Defs) (df : Def) (errs : List ParseError) :
    (d.root_def df errs).1 = (d.root_def df []).1 ∧
      (d.root_def df errs).2 = errs ++ (d.root_def df []).2 := by
  constructor
  · rfl
  · simp [Defs.root_def]

theorem insert_defs_append (d : Defs) (defs : List Def) (errs : List ParseError) :
    (Definitions.insert_defs d defs errs).1 = (Definitions.insert_defs d defs []).1 ∧
      (Definitions.insert_defs d defs errs).2 =
        errs ++ (Definitions.insert_defs d defs []).2 := by
  induction defs generalizing d errs with
  | nil => simp [Definitions.insert_defs]
  | cons df defs ih =>
      rw [insert_defs_cons, insert_defs_cons]
      rw [(root_def_snd d df errs).1, (root_def_snd d df errs).2]
      have h1 := ih (d.root_def df []).1 (errs ++ (d.root_def df []).2)
      have h2 := ih (d.root_def df []).1 (d.root_def df []).2
      constructor
      · rw [h1.1, h2.1]
      · rw [h1.2, h2.2]
        simp

/-- C1: when the compilation of a main filter generates at least one
error (unresolved name or arity, unbound variable), finish appends all
generated errors to the caller-supplied error list (a single call may
report several distinct errors) and returns the identity filter with an
empty recursion table instead of a partially built filter. -/
theorem finish_error_fallback (d : Defs) (m : Main) (errs : List ParseError)
    (h : genErrors d m ≠ []) :
    Definitions.finish d m errs =
      ({ tree := Filter.id, table := [] }, errs ++ genErrors d m) := by
  have hins := insert_defs_append d m.1 errs
  simp only [Definitions.finish, Defs.root_filter]
  rw [hins.1, hins.2]
  have hform : errs ++ (Definitions.insert_defs d m.1 []).2 ++
      termErrors (Definitions.insert_defs d m.1 []).1 [] m.2 = errs ++ genErrors d m := by
    simp [genErrors]
  rw [hform]
  have hne : ((errs ++ genErrors d m).isEmpty = true) → False := by
    intro hemp
    rw [List.isEmpty_iff] at hemp
    have : genErrors d m = [] := (List.append_eq_nil.mp hemp).2
    exact h this
  rw [if_neg hne]

/-- Witness for C1: a main body calling the undefined name g with two
arguments next to the separately unbound variable x generates exactly
the two corresponding errors in one finish call, which returns the
identity filter with an empty recursion table and the error list. -/
theorem finish_error_fallback_witness :
    genErrors (Defs.new [])
        ([], Term.commaT (Term.callT "g" [Term.id, Term.id]) (Term.varT "x")) =
      [ParseError.undefinedName "g" 2, ParseError.unboundVar "x"] ∧
    Definitions.finish (Defs.new [])
        ([], Term.commaT (Term.callT "g" [Term.id, Term.id]) (Term.varT "x")) [] =
      ({ tree := Filter.id, table := [] },
        [] ++ genErrors (Defs.new [])
          ([], Term.commaT (Term.callT "g" [Term.id, Term.id]) (Term.varT "x"))) := by
  have hg : genErrors (Defs.new [])
      ([], Term.commaT (Term.callT "g" [Term.id, Term.id]) (Term.varT "x")) =
      [ParseError.undefinedName "g" 2, ParseError.unboundVar "x"] := by
    simp [genErrors, Definitions.insert_defs, termErrors, resolveRef, Defs.new]
  refine ⟨hg, finish_error_fallback _ _ [] ?_⟩
  rw [hg]
  simp

/-- C8: for a self-recursive filter of arity k with a fixed number of
local bindings introduced per body execution, the environment depth at
entry to every recursive body execution equals the initial depth, and
the peak depth reached while preparing any recursive call equals the
initial depth plus the local-binding count plus k; both are constants
independent of the iteration count n (the position along the input
stream), because every call transfers control through save_skip_vars
with save the arity of the target and skip the number of bindings
introduced since the enclosing call of the same recursive slot. -/
theorem bounded_env_depth (k locals : Nat) (args locs : Nat → List Val)
    (e0 : RcList Val)
    (hargs : ∀ n, (args n).length = k) (hlocs : ∀ n, (locs n).length = locals)
    (h0 : k ≤ e0.length) :
    ∀ n, (recEnvs k locals args locs e0 n).length = e0.length ∧
      recPeak k locals args locs e0 n = e0.length + locals + k := by
  have hlen : ∀ n, (recEnvs k locals args locs e0 n).length = e0.length := by
    intro n
    induction n with
    | zero => rfl
    | succ n ih =>
        show (save_skip_vars k (locals + k)
          (RcList.cons_many (RcList.cons_many (recEnvs k locals args locs e0 n) (locs n))
            (args n))).length = e0.length
        rw [save_skip_vars_length]
        · rw [RcList.cons_many_eq, RcList.cons_many_eq]
          simp only [List.length_append, List.length_reverse, hargs, hlocs, ih]
          omega
        · rw [RcList.cons_many_eq, RcList.cons_many_eq]
          simp only [List.length_append, List.length_reverse, hargs, hlocs, ih]
          omega
  intro n
  refine ⟨hlen n, ?_⟩
  show (RcList.cons_many (RcList.cons_many (recEnvs k locals args locs e0 n) (locs n))
    (args n)).length = e0.length + locals + k
  rw [RcList.cons_many_eq, RcList.cons_many_eq]
  simp only [List.length_append, List.length_reverse, hargs, hlocs, hlen n]
  omega

/-- Witness for C8: arity 1, two locals per body, one initial binding;
at iteration 5 the entry depth is still the initial depth and the peak
depth is the constant 1 + 2 + 1. -/
theorem bounded_env_depth_witness :
    (recEnvs 1 2 (fun n => [Val.num (Int.ofNat n)]) (fun _ => [Val.null, Val.bool true])
        [Val.num 0] 5).length = ([Val.num 0] : RcList Val).length ∧
      recPeak 1 2 (fun n => [Val.num (Int.ofNat n)]) (fun _ => [Val.null, Val.bool true])
        [Val.num 0] 5 = ([Val.num 0] : RcList Val).length + 2 + 1 :=
  bounded_env_depth 1 2 (fun n => [Val.num (Int.ofNat n)])
    (fun _ => [Val.null, Val.bool true]) [Val.num 0]
    (fun _ => rfl) (fun _ => rfl) (by decide) 5

theorem SharedCache.pull_conserves (s : SharedCache α) (i : Nat) :
    ((s.pull i).2).runs + ((s.pull i).2).pending.length =
      s.runs + s.pending.length := by
  by_cases h : i < s.cache.length
  · simp [SharedCache.pull, h]
  · simp only [SharedCache.pull, dif_neg h]
    cases hp : s.pending with
    | nil => simp [hp]
    | cons x xs =>
        simp [hp]
        omega

/-- C9: output streams are not restartable and the shared memoizing
sequence never re-runs its producer: pulling any number of times from an
exhausted stream yields no elements; a pull at a position already in the
shared cache is answered from the cache with the whole state, producer
invocation count included, unchanged; and over any interleaving of pulls
by any number of consumers the number of producer invocations plus the
number of not-yet-produced elements is conserved, so the producer runs
at most once per element however many consumers pull. -/
theorem stream_not_restartable :
    (∀ n : Nat, collectN n ([] : List Val) = []) ∧
    (∀ (s : SharedCache Val) (i : Nat), i < s.cache.length → (s.pull i).2 = s) ∧
    (∀ (s : SharedCache Val) (is : List Nat),
        (s.pullAll is).runs + (s.pullAll is).pending.length =
          s.runs + s.pending.length) := by
  refine ⟨?_, ?_, ?_⟩
  · intro n
    cases n <;> simp [collectN, streamNext]
  · intro s i h
    simp [SharedCache.pull, h]
  · intro s is
    induction is generalizing s with
    | nil => rfl
    | cons i is ih =>
        have hstep : SharedCache.pullAll s (i :: is) =
            SharedCache.pullAll ((s.pull i).2) is := rfl
        rw [hstep, ih ((s.pull i).2), SharedCache.pull_conserves]

/-- Witness for C9: pulling twice at position 0 of a cache already
holding one element leaves the cache state, producer counter included,
untouched. -/
theorem stream_not_restartable_witness :
    ((SharedCache.mk [Val.num 7] [Val.num 8] 1).pull 0).2 =
      SharedCache.mk [Val.num 7] [Val.num 8] 1 :=
  stream_not_restartable.2.1 (SharedCache.mk [Val.num 7] [Val.num 8] 1) 0 (by decide)

/-- C10: running a compiled filter overwrites the recursion-table
reference of the supplied context with the table of the filter before
evaluation, so the results never depend on whatever table the caller's
context carried; and Ctx.new constructs a context with an empty
recursion table whose variable list is the reversed initial-binding
list, the last item of the iterator becoming the newest (offset 0)
binding. -/
theorem run_overwrites_recs (fuel : Nat) (f : MainFilter) (vars : RcList Val)
    (recs1 recs2 : List (Nat × Filter)) (v : Val) (xs : List Val) (x : Val) :
    MainFilter.run fuel f { vars := vars, recs := recs1 } v =
        MainFilter.run fuel f { vars := vars, recs := recs2 } v ∧
      (Ctx.new xs).recs = [] ∧
      (Ctx.new xs).vars = xs.reverse ∧
      (Ctx.new (xs ++ [x])).vars.head? = some x := by
  refine ⟨rfl, rfl, ?_, ?_⟩
  · show RcList.cons_many RcList.nil xs = xs.reverse
    rw [RcList.cons_many_eq]
    simp [RcList.nil]
  · show (RcList.cons_many RcList.nil (xs ++ [x])).head? = some x
    rw [RcList.cons_many_eq]
    simp [RcList.nil]

end Jaq
